import Mathlib

/-!
# Verification of `binpacker` (gonutz/binpacker)

Shallow embedding of `src/binpacker.go` (the version with `Enlarge`,
`ErrNoMoreSpace` and integer `usedArea`).  Go `int` values are modelled as
unbounded `Int` (the spec treats coordinates and sizes as plain integers and
no claim probes 64-bit overflow).  Go's in-place mutation of the node tree is
modelled by explicit state passing: `insert` returns the updated tree
together with an optional result rectangle (`none` models the
`ErrNoMoreSpace` return).  The float64 result of `Occupancy` is modelled as
an exact rational.
-/

namespace Binpacker

/-- Go: `type Rect struct{ X, Y, Width, Height int }` (binpacker.go line 54). -/
structure Rect where
  X : Int
  Y : Int
  Width : Int
  Height : Int
deriving DecidableEq, Repr

/-- Go: `type node struct { Rect; left, right *node }` (binpacker.go lines
49-52).  The two child pointers are independently nilable, exactly as in Go. -/
inductive Node where
  | mk (rect : Rect) (left right : Option Node) : Node
deriving Repr

/-- The `Rect` embedded in a node (Go's embedded field). -/
def Node.rect : Node → Rect
  | .mk r _ _ => r

/-- Go: `type Packer struct { root node; binWidth, binHeight int }`
(binpacker.go lines 44-47). -/
structure Packer where
  root : Node
  binWidth : Int
  binHeight : Int
deriving Repr

/-- Go: `func New(width, height int) *Packer` (binpacker.go lines 36-42).
The root is a single leaf `Rect{Width: width, Height: height}` (X = Y = 0). -/
def New (width height : Int) : Packer :=
  { root := Node.mk ⟨0, 0, width, height⟩ none none
    binWidth := width
    binHeight := height }

/-- Go: `func insert(n *node, width, height int) (*node, error)`
(binpacker.go lines 95-162), with the mutation of `n`'s subtree made
explicit: the returned `Node` is the updated subtree and the `Option Rect`
is the placed rectangle (`none` = `ErrNoMoreSpace`).  A node is a leaf iff
both children are nil (Go line 96 tests `n.left != nil || n.right != nil`);
at an interior node the left child is tried first and its success is
propagated without visiting the right child (lines 97-108). -/
def insert : Node → Int → Int → Node × Option Rect
  | .mk r none none, width, height =>
    -- leaf case, Go lines 112-161
    if width > r.Width || height > r.Height then
      (.mk r none none, none)
    else
      -- restW, restH (Go line 119)
      if r.Width - width < r.Height - height then
        -- split the remaining space horizontally (Go lines 121-134)
        (.mk ⟨r.X, r.Y, width, height⟩
          (some (.mk ⟨r.X + width, r.Y, r.Width - width, height⟩ none none))
          (some (.mk ⟨r.X, r.Y + height, r.Width, r.Height - height⟩ none none)),
         some ⟨r.X, r.Y, width, height⟩)
      else
        -- split the remaining space vertically (Go lines 135-149)
        (.mk ⟨r.X, r.Y, width, height⟩
          (some (.mk ⟨r.X, r.Y + height, width, r.Height - height⟩ none none))
          (some (.mk ⟨r.X + width, r.Y, r.Width - width, r.Height⟩ none none)),
         some ⟨r.X, r.Y, width, height⟩)
  | .mk r (some ln) rgt, width, height =>
    -- interior node with a left child: try left first (Go lines 97-102);
    -- on left success (`L.2.isSome`) propagate it without touching the right
    -- child, else fall through to the right child (Go lines 103-109).  The
    -- Go code's separate success/failure returns after the right-child call
    -- both yield exactly (updated tree, right call's result), written here
    -- as one pair.
    let L := insert ln width height
    if L.2.isSome then (.mk r (some L.1) rgt, L.2)
    else
      match rgt with
      | some rn =>
        let R := insert rn width height
        (.mk r (some L.1) (some R.1), R.2)
      | none => (.mk r (some L.1) none, none)
  | .mk r none (some rn), width, height =>
    -- interior node with only a right child (Go lines 103-109)
    let R := insert rn width height
    (.mk r none (some R.1), R.2)

/-- Go: `func (p *Packer) Insert(width, height int) (Rect, error)`
(binpacker.go lines 85-91). -/
def Packer.Insert (p : Packer) (width height : Int) : Packer × Option Rect :=
  let res := insert p.root width height
  ({ p with root := res.1 }, res.2)

/-- Go: `func (p *Packer) Enlarge(newWidth, newHeight int) error`
(binpacker.go lines 58-83).  `false` models the "enlarge: new size is
smaller" error, `true` models `nil`. -/
def Packer.Enlarge (p : Packer) (newWidth newHeight : Int) : Packer × Bool :=
  if newWidth < p.binWidth || newHeight < p.binHeight then
    (p, false)
  else
    ({ root := Node.mk ⟨0, 0, newWidth, newHeight⟩
         (some (Node.mk ⟨0, p.binHeight, newWidth, newHeight - p.binHeight⟩ none none))
         (some (Node.mk ⟨p.binWidth, 0, newWidth - p.binWidth, p.binHeight⟩ none none))
       binWidth := newWidth
       binHeight := newHeight }, true)

/-- Go: `func usedArea(n *node) int` (binpacker.go lines 168-181). -/
def usedArea : Node → Int
  | .mk r l rgt =>
    if l.isSome || rgt.isSome then
      r.Width * r.Height +
        (match l with | some ln => usedArea ln | none => 0) +
        (match rgt with | some rn => usedArea rn | none => 0)
    else 0

/-- Go: `func (p *Packer) Occupancy() float64` (binpacker.go lines 164-166),
with the float64 division modelled as exact rational division. -/
def Packer.Occupancy (p : Packer) : ℚ :=
  (usedArea p.root : ℚ) / ((p.binWidth * p.binHeight : Int) : ℚ)

/-! ## Specification-side definitions -/

/-- The integer point `(px, py)` lies in the half-open rectangle `r`
(`[X, X+Width) × [Y, Y+Height)`). -/
def Rect.covers (r : Rect) (px py : Int) : Prop :=
  r.X ≤ px ∧ px < r.X + r.Width ∧ r.Y ≤ py ∧ py < r.Y + r.Height

/-- Two rectangles are non-overlapping: no integer point lies in both. -/
def Rect.disj (a b : Rect) : Prop :=
  ∀ px py : Int, a.covers px py → b.covers px py → False

/-- `a` lies fully within `b`: every point of `a` is a point of `b`. -/
def Rect.inside (a b : Rect) : Prop :=
  ∀ px py : Int, a.covers px py → b.covers px py

/-- Footprint of a subtree: some node's own rect covers the point. -/
def foot : Node → Int → Int → Prop
  | .mk r l rgt, px, py =>
    r.covers px py ∨
    (match l with | some ln => foot ln px py | none => False) ∨
    (match rgt with | some rn => foot rn px py | none => False)

/-- Footprint of an optional subtree (`nil` pointer has empty footprint). -/
def optFoot (o : Option Node) (px py : Int) : Prop :=
  match o with | some n => foot n px py | none => False

/-- Free space of a subtree: some leaf's rect covers the point. -/
def freeP : Node → Int → Int → Prop
  | .mk r l rgt, px, py =>
    if l.isSome || rgt.isSome then
      (match l with | some ln => freeP ln px py | none => False) ∨
      (match rgt with | some rn => freeP rn px py | none => False)
    else r.covers px py

/-- Free space of an optional subtree. -/
def optFreeP (o : Option Node) (px py : Int) : Prop :=
  match o with | some n => freeP n px py | none => False

/-- Used space of a subtree: some interior node's rect covers the point. -/
def usedP : Node → Int → Int → Prop
  | .mk r l rgt, px, py =>
    if l.isSome || rgt.isSome then
      r.covers px py ∨
      (match l with | some ln => usedP ln px py | none => False) ∨
      (match rgt with | some rn => usedP rn px py | none => False)
    else False

/-- Used space of an optional subtree. -/
def optUsedP (o : Option Node) (px py : Int) : Prop :=
  match o with | some n => usedP n px py | none => False

/-- Geometric tree invariant: at every node, the node's own rect, the left
subtree's footprint and the right subtree's footprint are pairwise
non-overlapping. -/
def Inv : Node → Prop
  | .mk r l rgt =>
    (match l with | some ln => Inv ln | none => True) ∧
    (match rgt with | some rn => Inv rn | none => True) ∧
    (∀ px py, r.covers px py →
      (match l with | some ln => foot ln px py | none => False) → False) ∧
    (∀ px py, r.covers px py →
      (match rgt with | some rn => foot rn px py | none => False) → False) ∧
    (∀ px py, (match l with | some ln => foot ln px py | none => False) →
      (match rgt with | some rn => foot rn px py | none => False) → False)

/-- Invariant of an optional subtree. -/
def optInv (o : Option Node) : Prop :=
  match o with | some n => Inv n | none => True

/-- Sum of the areas of the leaf (free) rectangles of a subtree, the
counterpart of `usedArea`. -/
def freeArea : Node → Int
  | .mk r l rgt =>
    if l.isSome || rgt.isSome then
      (match l with | some ln => freeArea ln | none => 0) +
      (match rgt with | some rn => freeArea rn | none => 0)
    else r.Width * r.Height

/-- `usedArea` of an optional subtree (`nil` contributes 0). -/
def optUsedArea (o : Option Node) : Int :=
  match o with | some n => usedArea n | none => 0

/-- `freeArea` of an optional subtree (`nil` contributes 0). -/
def optFreeArea (o : Option Node) : Int :=
  match o with | some n => freeArea n | none => 0

/-- Every rect in the subtree has non-negative width and height. -/
def dimsNonneg : Node → Prop
  | .mk r l rgt =>
    (0 ≤ r.Width ∧ 0 ≤ r.Height) ∧
    (match l with | some ln => dimsNonneg ln | none => True) ∧
    (match rgt with | some rn => dimsNonneg rn | none => True)

/-- `dimsNonneg` of an optional subtree. -/
def optDimsNonneg (o : Option Node) : Prop :=
  match o with | some n => dimsNonneg n | none => True

/-- Every rect in the subtree has width 0. -/
def widthsZero : Node → Prop
  | .mk r l rgt =>
    r.Width = 0 ∧
    (match l with | some ln => widthsZero ln | none => True) ∧
    (match rgt with | some rn => widthsZero rn | none => True)

/-- `widthsZero` of an optional subtree. -/
def optWidthsZero (o : Option Node) : Prop :=
  match o with | some n => widthsZero n | none => True

/-- Every rect in the subtree has height 0. -/
def heightsZero : Node → Prop
  | .mk r l rgt =>
    r.Height = 0 ∧
    (match l with | some ln => heightsZero ln | none => True) ∧
    (match rgt with | some rn => heightsZero rn | none => True)

/-- `heightsZero` of an optional subtree. -/
def optHeightsZero (o : Option Node) : Prop :=
  match o with | some n => heightsZero n | none => True

/-- The rects of the leaves of a subtree, in depth-first left-to-right
(pre-)order — the order in which `insert` visits them. -/
def leafRects : Node → List Rect
  | .mk r l rgt =>
    if l.isSome || rgt.isSome then
      (match l with | some ln => leafRects ln | none => []) ++
      (match rgt with | some rn => leafRects rn | none => [])
    else [r]

/-- `leafRects` of an optional subtree. -/
def optLeafRects (o : Option Node) : List Rect :=
  match o with | some n => leafRects n | none => []

/-- The leaf fit test of binpacker.go line 113, as a Boolean predicate on the
leaf's rect: the request fits iff `¬(width > n.Width || height > n.Height)`. -/
def fitsB (w h : Int) (r : Rect) : Bool :=
  decide (w ≤ r.Width) && decide (h ≤ r.Height)

/-- A direction in the tree (towards left or right child). -/
inductive Dir where
  | left
  | right
deriving DecidableEq, Repr

/-- The subtree of `n` at a path of directions, if the path exists. -/
def getNode : Node → List Dir → Option Node
  | n, [] => some n
  | .mk _ l _, .left :: ds => (match l with | some ln => getNode ln ds | none => none)
  | .mk _ _ rgt, .right :: ds => (match rgt with | some rn => getNode rn ds | none => none)

/-- Replace the subtree of `n` at a path of directions by `m`; every node
off the path is untouched. -/
def setNode : Node → List Dir → Node → Node
  | _, [], m => m
  | .mk r l rgt, .left :: ds, m =>
    .mk r (match l with | some ln => some (setNode ln ds m) | none => none) rgt
  | .mk r l rgt, .right :: ds, m =>
    .mk r l (match rgt with | some rn => some (setNode rn ds m) | none => none)

/-- The interior node that a successful `insert` makes out of a leaf with
rect `r`: its own rect is shrunk to the placed rectangle and the two
children computed by the split rule of binpacker.go lines 119-149 are
attached. -/
def splitNode (r : Rect) (width height : Int) : Node :=
  if r.Width - width < r.Height - height then
    .mk ⟨r.X, r.Y, width, height⟩
      (some (.mk ⟨r.X + width, r.Y, r.Width - width, height⟩ none none))
      (some (.mk ⟨r.X, r.Y + height, r.Width, r.Height - height⟩ none none))
  else
    .mk ⟨r.X, r.Y, width, height⟩
      (some (.mk ⟨r.X, r.Y + height, width, r.Height - height⟩ none none))
      (some (.mk ⟨r.X + width, r.Y, r.Width - width, r.Height⟩ none none))

/-- Run a whole sequence of `Insert` calls, collecting each call's result. -/
def insertSeq : Packer → List (Int × Int) → Packer × List (Option Rect)
  | p, [] => (p, [])
  | p, q :: rest =>
    let step := p.Insert q.1 q.2
    let tail := insertSeq step.1 rest
    (tail.1, step.2 :: tail.2)

/-- Packer states reachable from `p` by any sequence of `Insert` calls
(successful or failed) whose requested dimensions are non-negative, the
range the spec's data model gives rectangle dimensions (§3: "all ≥ 0").
No `Enlarge` steps. -/
inductive ReachIns : Packer → Packer → Prop where
  | refl (p : Packer) : ReachIns p p
  | step (p q : Packer) (w h : Int) (hw : 0 ≤ w) (hh : 0 ≤ h)
      (hr : ReachIns p q) : ReachIns p (q.Insert w h).1

/-! ## Unfolding lemmas for the recursive definitions -/

theorem foot_mk (r : Rect) (l rgt : Option Node) (px py : Int) :
    foot (.mk r l rgt) px py ↔
      r.covers px py ∨ optFoot l px py ∨ optFoot rgt px py := by
  cases l <;> cases rgt <;> simp [foot, optFoot]

theorem freeP_mk (r : Rect) (l rgt : Option Node) (px py : Int) :
    freeP (.mk r l rgt) px py ↔
      (if l.isSome || rgt.isSome then optFreeP l px py ∨ optFreeP rgt px py
       else r.covers px py) := by
  cases l <;> cases rgt <;> simp [freeP, optFreeP]

theorem usedP_mk (r : Rect) (l rgt : Option Node) (px py : Int) :
    usedP (.mk r l rgt) px py ↔
      (if l.isSome || rgt.isSome then
        r.covers px py ∨ optUsedP l px py ∨ optUsedP rgt px py
       else False) := by
  cases l <;> cases rgt <;> simp [usedP, optUsedP]

theorem Inv_mk (r : Rect) (l rgt : Option Node) :
    Inv (.mk r l rgt) ↔
      optInv l ∧ optInv rgt ∧
      (∀ px py, r.covers px py → optFoot l px py → False) ∧
      (∀ px py, r.covers px py → optFoot rgt px py → False) ∧
      (∀ px py, optFoot l px py → optFoot rgt px py → False) := by
  cases l <;> cases rgt <;> simp [Inv, optInv, optFoot]

theorem usedArea_mk (r : Rect) (l rgt : Option Node) :
    usedArea (.mk r l rgt) =
      (if l.isSome || rgt.isSome then
        r.Width * r.Height + optUsedArea l + optUsedArea rgt
       else 0) := by
  cases l <;> cases rgt <;> simp [usedArea, optUsedArea]

theorem freeArea_mk (r : Rect) (l rgt : Option Node) :
    freeArea (.mk r l rgt) =
      (if l.isSome || rgt.isSome then optFreeArea l + optFreeArea rgt
       else r.Width * r.Height) := by
  cases l <;> cases rgt <;> simp [freeArea, optFreeArea]

theorem dimsNonneg_mk (r : Rect) (l rgt : Option Node) :
    dimsNonneg (.mk r l rgt) ↔
      (0 ≤ r.Width ∧ 0 ≤ r.Height) ∧ optDimsNonneg l ∧ optDimsNonneg rgt := by
  cases l <;> cases rgt <;> simp [dimsNonneg, optDimsNonneg]

theorem widthsZero_mk (r : Rect) (l rgt : Option Node) :
    widthsZero (.mk r l rgt) ↔
      r.Width = 0 ∧ optWidthsZero l ∧ optWidthsZero rgt := by
  cases l <;> cases rgt <;> simp [widthsZero, optWidthsZero]

theorem heightsZero_mk (r : Rect) (l rgt : Option Node) :
    heightsZero (.mk r l rgt) ↔
      r.Height = 0 ∧ optHeightsZero l ∧ optHeightsZero rgt := by
  cases l <;> cases rgt <;> simp [heightsZero, optHeightsZero]

theorem leafRects_mk (r : Rect) (l rgt : Option Node) :
    leafRects (.mk r l rgt) =
      (if l.isSome || rgt.isSome then optLeafRects l ++ optLeafRects rgt
       else [r]) := by
  cases l <;> cases rgt <;> simp [leafRects, optLeafRects]

/-! ## Basic facts about `insert` -/

/-- When `insert` fails it performs no mutation: the returned tree is the
input tree (binpacker.go lines 95-115: the failure paths write nothing). -/
theorem insert_snd_none : ∀ (n : Node) (w h : Int),
    (insert n w h).2 = none → (insert n w h).1 = n
  | .mk r none none, w, h => by
    simp only [insert]
    split
    · simp
    · split <;> simp
  | .mk r (some ln) rgt, w, h => by
    have IH := insert_snd_none ln w h
    cases rgt with
    | none =>
      rcases hl : insert ln w h with ⟨ln', resl⟩
      cases resl with
      | some ret => simp [insert, hl]
      | none =>
        have hln : ln' = ln := by rw [hl] at IH; simpa using IH
        simp [insert, hl, hln]
    | some rn =>
      have IHr := insert_snd_none rn w h
      rcases hl : insert ln w h with ⟨ln', resl⟩
      cases resl with
      | some ret => simp [insert, hl]
      | none =>
        have hln : ln' = ln := by rw [hl] at IH; simpa using IH
        rcases hr : insert rn w h with ⟨rn', resr⟩
        cases resr with
        | some ret => simp [insert, hl, hr]
        | none =>
          have hrn : rn' = rn := by rw [hr] at IHr; simpa using IHr
          simp [insert, hl, hr, hln, hrn]
  | .mk r none (some rn), w, h => by
    have IHr := insert_snd_none rn w h
    rcases hr : insert rn w h with ⟨rn', resr⟩
    cases resr with
    | some ret => simp [insert, hr]
    | none =>
      have hrn : rn' = rn := by rw [hr] at IHr; simpa using IHr
      simp [insert, hr, hrn]

/-- `Packer.Insert` spelled out. -/
theorem Packer.Insert_def (p : Packer) (w h : Int) :
    p.Insert w h =
      ({ p with root := (insert p.root w h).1 }, (insert p.root w h).2) := rfl

/-- A failed `Packer.Insert` leaves the packer unchanged. -/
theorem Packer.Insert_snd_none (p : Packer) (w h : Int)
    (hn : (p.Insert w h).2 = none) : (p.Insert w h).1 = p := by
  have := insert_snd_none p.root w h
  simp only [Packer.Insert_def] at hn ⊢
  simp [this hn]

/-- `Insert` never changes the stored bin dimensions. -/
theorem Packer.Insert_binDims (p : Packer) (w h : Int) :
    (p.Insert w h).1.binWidth = p.binWidth ∧
    (p.Insert w h).1.binHeight = p.binHeight := by
  simp [Packer.Insert_def]

/-- A successful `insert` adds exactly `w * h` to `usedArea`; a failed one
adds nothing. -/
theorem usedArea_insert : ∀ (n : Node) (w h : Int),
    usedArea (insert n w h).1 =
      usedArea n + (if (insert n w h).2.isSome then w * h else 0)
  | .mk r none none, w, h => by
    simp only [insert]
    split
    · simp [usedArea]
    · split <;> simp [usedArea]
  | .mk r (some ln) rgt, w, h => by
    have IH := usedArea_insert ln w h
    cases rgt with
    | none =>
      rcases hl : insert ln w h with ⟨ln', resl⟩
      rw [hl] at IH
      cases resl with
      | some ret => simp [insert, hl, usedArea] at IH ⊢; omega
      | none => simp [insert, hl, usedArea] at IH ⊢; omega
    | some rn =>
      have IHr := usedArea_insert rn w h
      rcases hl : insert ln w h with ⟨ln', resl⟩
      rw [hl] at IH
      cases resl with
      | some ret => simp [insert, hl, usedArea] at IH ⊢; omega
      | none =>
        rcases hr : insert rn w h with ⟨rn', resr⟩
        rw [hr] at IHr
        cases resr with
        | some ret => simp [insert, hl, hr, usedArea] at IH IHr ⊢; omega
        | none => simp [insert, hl, hr, usedArea] at IH IHr ⊢; omega
  | .mk r none (some rn), w, h => by
    have IHr := usedArea_insert rn w h
    rcases hr : insert rn w h with ⟨rn', resr⟩
    rw [hr] at IHr
    cases resr with
    | some ret => simp [insert, hr, usedArea] at IHr ⊢; omega
    | none => simp [insert, hr, usedArea] at IHr ⊢; omega

/-- `insert` preserves the total of used and free area (the guillotine split
is exact: occupied + two children = the split leaf). -/
theorem area_sum_insert : ∀ (n : Node) (w h : Int),
    usedArea (insert n w h).1 + freeArea (insert n w h).1 =
      usedArea n + freeArea n
  | .mk r none none, w, h => by
    simp only [insert]
    split
    · simp
    · split <;> simp [usedArea, freeArea] <;> ring
  | .mk r (some ln) rgt, w, h => by
    have IH := area_sum_insert ln w h
    cases rgt with
    | none =>
      rcases hl : insert ln w h with ⟨ln', resl⟩
      rw [hl] at IH
      cases resl with
      | some ret => simp [insert, hl, usedArea, freeArea] at IH ⊢; omega
      | none => simp [insert, hl, usedArea, freeArea] at IH ⊢; omega
    | some rn =>
      have IHr := area_sum_insert rn w h
      rcases hl : insert ln w h with ⟨ln', resl⟩
      rw [hl] at IH
      cases resl with
      | some ret => simp [insert, hl, usedArea, freeArea] at IH ⊢; omega
      | none =>
        rcases hr : insert rn w h with ⟨rn', resr⟩
        rw [hr] at IHr
        cases resr with
        | some ret => simp [insert, hl, hr, usedArea, freeArea] at IH IHr ⊢; omega
        | none => simp [insert, hl, hr, usedArea, freeArea] at IH IHr ⊢; omega
  | .mk r none (some rn), w, h => by
    have IHr := area_sum_insert rn w h
    rcases hr : insert rn w h with ⟨rn', resr⟩
    rw [hr] at IHr
    cases resr with
    | some ret => simp [insert, hr, usedArea, freeArea] at IHr ⊢; omega
    | none => simp [insert, hr, usedArea, freeArea] at IHr ⊢; omega

/-- `insert` with a non-negative request keeps every rect's dimensions
non-negative. -/
theorem dimsNonneg_insert : ∀ (n : Node) (w h : Int),
    dimsNonneg n → 0 ≤ w → 0 ≤ h → dimsNonneg (insert n w h).1
  | .mk r none none, w, h => by
    intro hd hw hh
    simp only [insert]
    split
    · simpa using hd
    · rename_i hfit
      simp only [decide_eq_true_eq, Bool.or_eq_true, not_or] at hfit
      simp only [dimsNonneg] at hd
      split <;> simp [dimsNonneg] <;> omega
  | .mk r (some ln) rgt, w, h => by
    intro hd hw hh
    have hd' := (dimsNonneg_mk _ _ _).mp hd
    have IH := dimsNonneg_insert ln w h (by simpa [optDimsNonneg] using hd'.2.1) hw hh
    cases rgt with
    | none =>
      rcases hl : insert ln w h with ⟨ln', resl⟩
      rw [hl] at IH
      cases resl <;>
        simp [insert, hl, dimsNonneg_mk, optDimsNonneg, hd'.1, IH]
    | some rn =>
      have IHr := dimsNonneg_insert rn w h
        (by simpa [optDimsNonneg] using hd'.2.2) hw hh
      rcases hl : insert ln w h with ⟨ln', resl⟩
      rw [hl] at IH
      cases resl with
      | some ret =>
        simp [insert, hl, dimsNonneg_mk, optDimsNonneg, hd'.1, IH]
        simpa [optDimsNonneg] using hd'.2.2
      | none =>
        rcases hr : insert rn w h with ⟨rn', resr⟩
        rw [hr] at IHr
        cases resr <;>
          simp [insert, hl, hr, dimsNonneg_mk, optDimsNonneg, hd'.1, IH, IHr]
  | .mk r none (some rn), w, h => by
    intro hd hw hh
    have hd' := (dimsNonneg_mk _ _ _).mp hd
    have IHr := dimsNonneg_insert rn w h
      (by simpa [optDimsNonneg] using hd'.2.2) hw hh
    rcases hr : insert rn w h with ⟨rn', resr⟩
    rw [hr] at IHr
    cases resr <;>
      simp [insert, hr, dimsNonneg_mk, optDimsNonneg, hd'.1, IHr]

/-- When every rect has non-negative dimensions, both area sums are
non-negative. -/
theorem areas_nonneg : ∀ (n : Node),
    dimsNonneg n → 0 ≤ usedArea n ∧ 0 ≤ freeArea n
  | .mk r l rgt => by
    intro hd
    have hd' := (dimsNonneg_mk _ _ _).mp hd
    have hr0 : 0 ≤ r.Width * r.Height := mul_nonneg hd'.1.1 hd'.1.2
    cases l with
    | none =>
      cases rgt with
      | none => simp [usedArea, freeArea, hr0]
      | some rn =>
        have IHr := areas_nonneg rn (by simpa [optDimsNonneg] using hd'.2.2)
        simp [usedArea, freeArea]
        omega
    | some ln =>
      have IHl := areas_nonneg ln (by simpa [optDimsNonneg] using hd'.2.1)
      cases rgt with
      | none =>
        simp [usedArea, freeArea]
        omega
      | some rn =>
        have IHr := areas_nonneg rn (by simpa [optDimsNonneg] using hd'.2.2)
        simp [usedArea, freeArea]
        omega

/-- At a leaf whose rect the request does not fit, `insert` fails and
changes nothing (binpacker.go lines 113-115). -/
theorem insert_leaf_nofit (r : Rect) (w h : Int)
    (hn : ¬(w ≤ r.Width ∧ h ≤ r.Height)) :
    insert (.mk r none none) w h = (.mk r none none, none) := by
  simp only [insert]
  rw [if_pos]
  simp only [decide_eq_true_eq, Bool.or_eq_true]
  omega

/-- At a leaf whose rect the request fits, `insert` splits the leaf
(binpacker.go lines 119-161) and returns the shrunk rect. -/
theorem insert_leaf_fit (r : Rect) (w h : Int)
    (hw : w ≤ r.Width) (hh : h ≤ r.Height) :
    insert (.mk r none none) w h = (splitNode r w h, some ⟨r.X, r.Y, w, h⟩) := by
  simp only [insert, splitNode]
  rw [if_neg]
  · split <;> rfl
  · simp only [decide_eq_true_eq, Bool.or_eq_true]
    omega

/-- First-fit characterization: the result of `insert` is exactly the first
leaf rect in depth-first left-to-right order that the request fits, shrunk
to the request's dimensions at that leaf's corner. -/
theorem insert_snd_eq_find : ∀ (n : Node) (w h : Int),
    (insert n w h).2 =
      ((leafRects n).find? (fitsB w h)).map (fun r => ⟨r.X, r.Y, w, h⟩)
  | .mk r none none, w, h => by
    by_cases hfit : w ≤ r.Width ∧ h ≤ r.Height
    · rw [insert_leaf_fit r w h hfit.1 hfit.2]
      simp [leafRects, List.find?, fitsB, hfit.1, hfit.2]
    · rw [insert_leaf_nofit r w h hfit]
      rcases not_and_or.mp hfit with hc | hc <;>
        simp [leafRects, List.find?, fitsB, hc]
  | .mk r (some ln) rgt, w, h => by
    have IH := insert_snd_eq_find ln w h
    rcases hl : insert ln w h with ⟨ln', resl⟩
    rw [hl] at IH
    cases rgt with
    | none =>
      cases resl with
      | some ret =>
        cases hfind : (leafRects ln).find? (fitsB w h) with
        | none => rw [hfind] at IH; simp at IH
        | some r0 =>
          rw [hfind] at IH
          simp only [Option.map_some] at IH
          simp [insert, hl, leafRects_mk, optLeafRects, List.find?_append,
            hfind, IH]
      | none =>
        cases hfind : (leafRects ln).find? (fitsB w h) with
        | none =>
          simp [insert, hl, leafRects_mk, optLeafRects, List.find?_append,
            hfind]
        | some r0 => rw [hfind] at IH; simp at IH
    | some rn =>
      have IHr := insert_snd_eq_find rn w h
      rcases hr : insert rn w h with ⟨rn', resr⟩
      rw [hr] at IHr
      cases resl with
      | some ret =>
        cases hfind : (leafRects ln).find? (fitsB w h) with
        | none => rw [hfind] at IH; simp at IH
        | some r0 =>
          rw [hfind] at IH
          simp only [Option.map_some] at IH
          simp [insert, hl, leafRects_mk, optLeafRects, List.find?_append,
            hfind, IH]
      | none =>
        cases hfind : (leafRects ln).find? (fitsB w h) with
        | none =>
          simp [insert, hl, hr, leafRects_mk, optLeafRects, List.find?_append,
            hfind, IHr]
        | some r0 => rw [hfind] at IH; simp at IH
  | .mk r none (some rn), w, h => by
    have IHr := insert_snd_eq_find rn w h
    rcases hr : insert rn w h with ⟨rn', resr⟩
    rw [hr] at IHr
    simp [insert, hr, leafRects_mk, optLeafRects, IHr]

/-- If no leaf rect fits the request, `insert` fails. -/
theorem insert_fail_of_no_fit (n : Node) (w h : Int)
    (hno : ∀ r ∈ leafRects n, fitsB w h r = false) :
    (insert n w h).2 = none := by
  rw [insert_snd_eq_find, List.find?_eq_none.mpr]
  · rfl
  · intro x hx
    simp [hno x hx]

/-- Every leaf rect of a `widthsZero` tree has width 0. -/
theorem widthsZero_leafRects : ∀ (n : Node),
    widthsZero n → ∀ r ∈ leafRects n, r.Width = 0
  | .mk r l rgt => by
    intro hz
    have hz' := (widthsZero_mk _ _ _).mp hz
    cases l with
    | none =>
      cases rgt with
      | none => simpa [leafRects, optLeafRects] using hz'.1
      | some rn =>
        have IHr := widthsZero_leafRects rn
          (by simpa [optWidthsZero] using hz'.2.2)
        simpa [leafRects_mk, optLeafRects] using IHr
    | some ln =>
      have IHl := widthsZero_leafRects ln
        (by simpa [optWidthsZero] using hz'.2.1)
      cases rgt with
      | none => simpa [leafRects_mk, optLeafRects] using IHl
      | some rn =>
        have IHr := widthsZero_leafRects rn
          (by simpa [optWidthsZero] using hz'.2.2)
        simp only [leafRects_mk, optLeafRects]
        intro x hx
        simp only [Option.isSome_some, Bool.or_self, if_true,
          List.mem_append] at hx
        rcases hx with hx | hx
        · exact IHl x hx
        · exact IHr x hx

/-- Every leaf rect of a `heightsZero` tree has height 0. -/
theorem heightsZero_leafRects : ∀ (n : Node),
    heightsZero n → ∀ r ∈ leafRects n, r.Height = 0
  | .mk r l rgt => by
    intro hz
    have hz' := (heightsZero_mk _ _ _).mp hz
    cases l with
    | none =>
      cases rgt with
      | none => simpa [leafRects, optLeafRects] using hz'.1
      | some rn =>
        have IHr := heightsZero_leafRects rn
          (by simpa [optHeightsZero] using hz'.2.2)
        simpa [leafRects_mk, optLeafRects] using IHr
    | some ln =>
      have IHl := heightsZero_leafRects ln
        (by simpa [optHeightsZero] using hz'.2.1)
      cases rgt with
      | none => simpa [leafRects_mk, optLeafRects] using IHl
      | some rn =>
        have IHr := heightsZero_leafRects rn
          (by simpa [optHeightsZero] using hz'.2.2)
        simp only [leafRects_mk, optLeafRects]
        intro x hx
        simp only [Option.isSome_some, Bool.or_self, if_true,
          List.mem_append] at hx
        rcases hx with hx | hx
        · exact IHl x hx
        · exact IHr x hx

/-- `insert` with a non-negative requested width keeps all widths 0. -/
theorem widthsZero_insert : ∀ (n : Node) (w h : Int),
    widthsZero n → 0 ≤ w → widthsZero (insert n w h).1
  | .mk r none none, w, h => by
    intro hz hw
    have hz' := (widthsZero_mk _ _ _).mp hz
    by_cases hfit : w ≤ r.Width ∧ h ≤ r.Height
    · rw [insert_leaf_fit r w h hfit.1 hfit.2]
      have hw0 : w = 0 := by
        have := hz'.1
        omega
      simp only [splitNode]
      split <;>
        simp [widthsZero, hz'.1, hw0]
    · rw [insert_leaf_nofit r w h hfit]
      exact hz
  | .mk r (some ln) rgt, w, h => by
    intro hz hw
    have hz' := (widthsZero_mk _ _ _).mp hz
    have IH := widthsZero_insert ln w h
      (by simpa [optWidthsZero] using hz'.2.1) hw
    cases rgt with
    | none =>
      rcases hl : insert ln w h with ⟨ln', resl⟩
      rw [hl] at IH
      cases resl <;>
        simp [insert, hl, widthsZero_mk, optWidthsZero, hz'.1, IH]
    | some rn =>
      have IHr := widthsZero_insert rn w h
        (by simpa [optWidthsZero] using hz'.2.2) hw
      rcases hl : insert ln w h with ⟨ln', resl⟩
      rw [hl] at IH
      cases resl with
      | some ret =>
        simp [insert, hl, widthsZero_mk, optWidthsZero, hz'.1, IH]
        simpa [optWidthsZero] using hz'.2.2
      | none =>
        rcases hr : insert rn w h with ⟨rn', resr⟩
        rw [hr] at IHr
        cases resr <;>
          simp [insert, hl, hr, widthsZero_mk, optWidthsZero, hz'.1, IH, IHr]
  | .mk r none (some rn), w, h => by
    intro hz hw
    have hz' := (widthsZero_mk _ _ _).mp hz
    have IHr := widthsZero_insert rn w h
      (by simpa [optWidthsZero] using hz'.2.2) hw
    rcases hr : insert rn w h with ⟨rn', resr⟩
    rw [hr] at IHr
    cases resr <;>
      simp [insert, hr, widthsZero_mk, optWidthsZero, hz'.1, IHr]

/-- `insert` with a non-negative requested height keeps all heights 0. -/
theorem heightsZero_insert : ∀ (n : Node) (w h : Int),
    heightsZero n → 0 ≤ h → heightsZero (insert n w h).1
  | .mk r none none, w, h => by
    intro hz hh
    have hz' := (heightsZero_mk _ _ _).mp hz
    by_cases hfit : w ≤ r.Width ∧ h ≤ r.Height
    · rw [insert_leaf_fit r w h hfit.1 hfit.2]
      have hh0 : h = 0 := by
        have := hz'.1
        omega
      simp only [splitNode]
      split <;>
        simp [heightsZero, hz'.1, hh0]
    · rw [insert_leaf_nofit r w h hfit]
      exact hz
  | .mk r (some ln) rgt, w, h => by
    intro hz hh
    have hz' := (heightsZero_mk _ _ _).mp hz
    have IH := heightsZero_insert ln w h
      (by simpa [optHeightsZero] using hz'.2.1) hh
    cases rgt with
    | none =>
      rcases hl : insert ln w h with ⟨ln', resl⟩
      rw [hl] at IH
      cases resl <;>
        simp [insert, hl, heightsZero_mk, optHeightsZero, hz'.1, IH]
    | some rn =>
      have IHr := heightsZero_insert rn w h
        (by simpa [optHeightsZero] using hz'.2.2) hh
      rcases hl : insert ln w h with ⟨ln', resl⟩
      rw [hl] at IH
      cases resl with
      | some ret =>
        simp [insert, hl, heightsZero_mk, optHeightsZero, hz'.1, IH]
        simpa [optHeightsZero] using hz'.2.2
      | none =>
        rcases hr : insert rn w h with ⟨rn', resr⟩
        rw [hr] at IHr
        cases resr <;>
          simp [insert, hl, hr, heightsZero_mk, optHeightsZero, hz'.1, IH, IHr]
  | .mk r none (some rn), w, h => by
    intro hz hh
    have hz' := (heightsZero_mk _ _ _).mp hz
    have IHr := heightsZero_insert rn w h
      (by simpa [optHeightsZero] using hz'.2.2) hh
    rcases hr : insert rn w h with ⟨rn', resr⟩
    rw [hr] at IHr
    cases resr <;>
      simp [insert, hr, heightsZero_mk, optHeightsZero, hz'.1, IHr]

/-! ## Geometric lemmas about the split of a leaf -/

/-- The three rects produced by a split stay inside the split leaf's rect. -/
theorem splitNode_foot_sub (r : Rect) (w h : Int) (hw : 0 ≤ w) (hh : 0 ≤ h)
    (hfw : w ≤ r.Width) (hfh : h ≤ r.Height) :
    ∀ px py, foot (splitNode r w h) px py → r.covers px py := by
  intro px py hf
  simp only [splitNode] at hf
  split at hf <;> simp [foot, Rect.covers] at hf <;>
    simp only [Rect.covers] <;> omega

/-- The split of a leaf satisfies the disjointness invariant. -/
theorem splitNode_Inv (r : Rect) (w h : Int) (hw : 0 ≤ w) (hh : 0 ≤ h)
    (hfw : w ≤ r.Width) (hfh : h ≤ r.Height) :
    Inv (splitNode r w h) := by
  simp only [splitNode]
  split <;>
    (simp [Inv, foot, Rect.covers]
     refine ⟨?_, ?_, ?_⟩ <;> intro px py <;> omega)

/-- The used set of a freshly split leaf is exactly the placed rectangle. -/
theorem splitNode_usedP (r : Rect) (w h : Int) :
    ∀ px py, usedP (splitNode r w h) px py ↔
      Rect.covers ⟨r.X, r.Y, w, h⟩ px py := by
  intro px py
  simp only [splitNode]
  split <;> simp [usedP]

/-- The placed rectangle lies inside the split leaf's rect. -/
theorem splitNode_ret_sub (r : Rect) (w h : Int) (hw : 0 ≤ w) (hh : 0 ≤ h)
    (hfw : w ≤ r.Width) (hfh : h ≤ r.Height) :
    ∀ px py, Rect.covers ⟨r.X, r.Y, w, h⟩ px py → r.covers px py := by
  intro px py
  simp only [Rect.covers]
  omega

/-- Used points of a subtree lie in its footprint. -/
theorem usedP_sub_foot : ∀ (n : Node) (px py : Int),
    usedP n px py → foot n px py
  | .mk r l rgt, px, py => by
    cases l with
    | none =>
      cases rgt with
      | none => simp [usedP, foot]
      | some rn =>
        have IHr := usedP_sub_foot rn px py
        simp only [usedP, foot]
        simp only [Option.isSome_none, Option.isSome_some, Bool.false_or,
          if_true]
        tauto
    | some ln =>
      have IHl := usedP_sub_foot ln px py
      cases rgt with
      | none =>
        simp only [usedP, foot]
        simp only [Option.isSome_none, Option.isSome_some, Bool.or_false,
          if_true]
        tauto
      | some rn =>
        have IHr := usedP_sub_foot rn px py
        simp only [usedP, foot]
        simp only [Option.isSome_some, Bool.or_self, if_true]
        tauto

/-- Free points of a subtree lie in its footprint. -/
theorem freeP_sub_foot : ∀ (n : Node) (px py : Int),
    freeP n px py → foot n px py
  | .mk r l rgt, px, py => by
    cases l with
    | none =>
      cases rgt with
      | none => simp [freeP, foot]
      | some rn =>
        have IHr := freeP_sub_foot rn px py
        simp only [freeP, foot]
        simp only [Option.isSome_none, Option.isSome_some, Bool.false_or,
          if_true]
        tauto
    | some ln =>
      have IHl := freeP_sub_foot ln px py
      cases rgt with
      | none =>
        simp only [freeP, foot]
        simp only [Option.isSome_none, Option.isSome_some, Bool.or_false,
          if_true]
        tauto
      | some rn =>
        have IHr := freeP_sub_foot rn px py
        simp only [freeP, foot]
        simp only [Option.isSome_some, Bool.or_self, if_true]
        tauto

/-- Under the invariant, used and free points are disjoint. -/
theorem usedP_freeP_disj : ∀ (n : Node), Inv n →
    ∀ px py, usedP n px py → freeP n px py → False
  | .mk r l rgt => by
    intro hinv px py hu hf
    have hinv' := (Inv_mk _ _ _).mp hinv
    cases l with
    | none =>
      cases rgt with
      | none => simp [usedP] at hu
      | some rn =>
        have IHr := usedP_freeP_disj rn
          (by simpa [optInv] using hinv'.2.1) px py
        simp only [usedP, freeP, Option.isSome_none, Option.isSome_some,
          Bool.false_or, if_true] at hu hf
        rcases hu with hu | hu | hu
        · exact hinv'.2.2.2.1 px py hu (by
            simpa [optFoot] using freeP_sub_foot rn px py (by tauto))
        · exact hu
        · rcases hf with hf | hf
          · exact hf
          · exact IHr hu hf
    | some ln =>
      have IHl := usedP_freeP_disj ln (by simpa [optInv] using hinv'.1) px py
      cases rgt with
      | none =>
        simp only [usedP, freeP, Option.isSome_none, Option.isSome_some,
          Bool.or_false, if_true] at hu hf
        rcases hf with hf | hf
        swap
        · exact hf
        rcases hu with hu | hu | hu
        · exact hinv'.2.2.1 px py hu (by
            simpa [optFoot] using freeP_sub_foot ln px py hf)
        · exact IHl hu hf
        · exact hu
      | some rn =>
        have IHr := usedP_freeP_disj rn
          (by simpa [optInv] using hinv'.2.1) px py
        simp only [usedP, freeP, Option.isSome_some, Bool.or_self,
          if_true] at hu hf
        rcases hu with hu | hu | hu
        · rcases hf with hf | hf
          · exact hinv'.2.2.1 px py hu
              (by simpa [optFoot] using freeP_sub_foot ln px py hf)
          · exact hinv'.2.2.2.1 px py hu
              (by simpa [optFoot] using freeP_sub_foot rn px py hf)
        · rcases hf with hf | hf
          · exact IHl hu hf
          · exact hinv'.2.2.2.2 px py
              (by simpa [optFoot] using usedP_sub_foot ln px py hu)
              (by simpa [optFoot] using freeP_sub_foot rn px py hf)
        · rcases hf with hf | hf
          · exact hinv'.2.2.2.2 px py
              (by simpa [optFoot] using freeP_sub_foot ln px py hf)
              (by simpa [optFoot] using usedP_sub_foot rn px py hu)
          · exact IHr hu hf

/-! ## Interior-node unfolding combinators for `insert` -/

/-- If the left child's insert succeeds, the node's insert succeeds with
that result and the right child is untouched (Go lines 97-102). -/
theorem insert_node_left_success (r : Rect) (ln : Node) (rgt : Option Node)
    (w h : Int) (ln' : Node) (retl : Rect)
    (hl : insert ln w h = (ln', some retl)) :
    insert (.mk r (some ln) rgt) w h = (.mk r (some ln') rgt, some retl) := by
  cases rgt <;> simp [insert, hl]

/-- If the left child's insert fails, the node's insert continues with the
right child and propagates its result (Go lines 103-109). -/
theorem insert_node_left_fail (r : Rect) (ln rn : Node) (w h : Int)
    (ln' rn' : Node) (resr : Option Rect)
    (hl : insert ln w h = (ln', none)) (hr : insert rn w h = (rn', resr)) :
    insert (.mk r (some ln) (some rn)) w h =
      (.mk r (some ln') (some rn'), resr) := by
  cases resr <;> simp [insert, hl, hr]

/-- If the left child's insert fails and there is no right child, the node's
insert fails (Go line 109). -/
theorem insert_node_left_fail_none (r : Rect) (ln : Node) (w h : Int)
    (ln' : Node) (hl : insert ln w h = (ln', none)) :
    insert (.mk r (some ln) none) w h = (.mk r (some ln') none, none) := by
  simp [insert, hl]

/-- With only a right child, the node's insert is the right child's insert
(Go lines 103-109). -/
theorem insert_node_right_only (r : Rect) (rn : Node) (w h : Int)
    (rn' : Node) (resr : Option Rect) (hr : insert rn w h = (rn', resr)) :
    insert (.mk r none (some rn)) w h = (.mk r none (some rn'), resr) := by
  cases resr <;> simp [insert, hr]

/-! ## Preservation of the geometric invariant -/

/-- Replacing the left child by a subtree with a smaller footprint whose new
used points came out of the child's free space preserves everything the
geometric induction needs. -/
theorem geom_left_step (r : Rect) (ln ln' : Node) (rgt : Option Node)
    (ret : Rect) (hInv : Inv (.mk r (some ln) rgt)) (hInvLn' : Inv ln')
    (hfootsub : ∀ px py, foot ln' px py → foot ln px py)
    (hretfree : ∀ px py, ret.covers px py → freeP ln px py)
    (husediff : ∀ px py, usedP ln' px py ↔ usedP ln px py ∨ ret.covers px py) :
    Inv (.mk r (some ln') rgt) ∧
    (∀ px py, foot (.mk r (some ln') rgt) px py →
      foot (.mk r (some ln) rgt) px py) ∧
    (∀ px py, ret.covers px py → freeP (.mk r (some ln) rgt) px py) ∧
    (∀ px py, usedP (.mk r (some ln') rgt) px py ↔
      usedP (.mk r (some ln) rgt) px py ∨ ret.covers px py) := by
  obtain ⟨h1, h2, h3, h4, h5⟩ := (Inv_mk _ _ _).mp hInv
  refine ⟨?_, ?_, ?_, ?_⟩
  · refine (Inv_mk _ _ _).mpr ⟨by simpa [optInv] using hInvLn', h2, ?_, h4, ?_⟩
    · intro px py hc hf
      exact h3 px py hc (by
        simpa [optFoot] using hfootsub px py (by simpa [optFoot] using hf))
    · intro px py hfl hfr
      exact h5 px py (by
        simpa [optFoot] using hfootsub px py (by simpa [optFoot] using hfl)) hfr
  · intro px py hf
    rw [foot_mk] at hf ⊢
    rcases hf with hf | hf | hf
    · exact Or.inl hf
    · exact Or.inr (Or.inl (by
        simpa [optFoot] using hfootsub px py (by simpa [optFoot] using hf)))
    · exact Or.inr (Or.inr hf)
  · intro px py hc
    rw [freeP_mk]
    simp only [Option.isSome_some, Bool.true_or, if_true]
    exact Or.inl (by simpa [optFreeP] using hretfree px py hc)
  · intro px py
    rw [usedP_mk, usedP_mk]
    simp only [Option.isSome_some, Bool.true_or, if_true, optUsedP]
    have := husediff px py
    tauto

/-- The mirror of `geom_left_step` for the right child. -/
theorem geom_right_step (r : Rect) (l : Option Node) (rn rn' : Node)
    (ret : Rect) (hInv : Inv (.mk r l (some rn))) (hInvRn' : Inv rn')
    (hfootsub : ∀ px py, foot rn' px py → foot rn px py)
    (hretfree : ∀ px py, ret.covers px py → freeP rn px py)
    (husediff : ∀ px py, usedP rn' px py ↔ usedP rn px py ∨ ret.covers px py) :
    Inv (.mk r l (some rn')) ∧
    (∀ px py, foot (.mk r l (some rn')) px py →
      foot (.mk r l (some rn)) px py) ∧
    (∀ px py, ret.covers px py → freeP (.mk r l (some rn)) px py) ∧
    (∀ px py, usedP (.mk r l (some rn')) px py ↔
      usedP (.mk r l (some rn)) px py ∨ ret.covers px py) := by
  obtain ⟨h1, h2, h3, h4, h5⟩ := (Inv_mk _ _ _).mp hInv
  refine ⟨?_, ?_, ?_, ?_⟩
  · refine (Inv_mk _ _ _).mpr ⟨h1, by simpa [optInv] using hInvRn', h3, ?_, ?_⟩
    · intro px py hc hf
      exact h4 px py hc (by
        simpa [optFoot] using hfootsub px py (by simpa [optFoot] using hf))
    · intro px py hfl hfr
      exact h5 px py hfl (by
        simpa [optFoot] using hfootsub px py (by simpa [optFoot] using hfr))
  · intro px py hf
    rw [foot_mk] at hf ⊢
    rcases hf with hf | hf | hf
    · exact Or.inl hf
    · exact Or.inr (Or.inl hf)
    · exact Or.inr (Or.inr (by
        simpa [optFoot] using hfootsub px py (by simpa [optFoot] using hf)))
  · intro px py hc
    rw [freeP_mk]
    simp only [Option.isSome_some, Bool.or_true, if_true]
    exact Or.inr (by simpa [optFreeP] using hretfree px py hc)
  · intro px py
    rw [usedP_mk, usedP_mk]
    simp only [Option.isSome_some, Bool.or_true, if_true, optUsedP]
    have := husediff px py
    tauto

/-- Main geometric lemma: a successful `insert` with a non-negative request
on a tree satisfying the invariant preserves the invariant, shrinks the
footprint, places the returned rect inside the old free space, and adds
exactly the returned rect to the used space. -/
theorem insert_geom : ∀ (n : Node) (w h : Int) (n' : Node) (ret : Rect),
    insert n w h = (n', some ret) → 0 ≤ w → 0 ≤ h → Inv n →
    Inv n' ∧
    (∀ px py, foot n' px py → foot n px py) ∧
    (∀ px py, ret.covers px py → freeP n px py) ∧
    (∀ px py, usedP n' px py ↔ usedP n px py ∨ ret.covers px py)
  | .mk r none none, w, h, n', ret => by
    intro heq hw hh _
    by_cases hfit : w ≤ r.Width ∧ h ≤ r.Height
    · rw [insert_leaf_fit r w h hfit.1 hfit.2] at heq
      have h1 : splitNode r w h = n' := congrArg Prod.fst heq
      have h2 : (some ⟨r.X, r.Y, w, h⟩ : Option Rect) = some ret :=
        congrArg Prod.snd heq
      have h2' : (⟨r.X, r.Y, w, h⟩ : Rect) = ret := by
        injection h2
      subst h1
      subst h2'
      refine ⟨splitNode_Inv r w h hw hh hfit.1 hfit.2, ?_, ?_, ?_⟩
      · intro px py hf
        have := splitNode_foot_sub r w h hw hh hfit.1 hfit.2 px py hf
        simp only [foot]
        tauto
      · intro px py hc
        have := splitNode_ret_sub r w h hw hh hfit.1 hfit.2 px py hc
        simpa [freeP] using this
      · intro px py
        rw [splitNode_usedP]
        simp [usedP]
    · rw [insert_leaf_nofit r w h hfit] at heq
      have : (none : Option Rect) = some ret := congrArg Prod.snd heq
      exact absurd this (by simp)
  | .mk r (some ln) rgt, w, h, n', ret => by
    intro heq hw hh hinv
    have hInvLn : Inv ln := by
      simpa [optInv] using ((Inv_mk _ _ _).mp hinv).1
    rcases hl : insert ln w h with ⟨ln', resl⟩
    cases resl with
    | some retl =>
      rw [insert_node_left_success r ln rgt w h ln' retl hl] at heq
      have h1 : Node.mk r (some ln') rgt = n' := congrArg Prod.fst heq
      have h2 : (some retl : Option Rect) = some ret := congrArg Prod.snd heq
      have h2' : retl = ret := by injection h2
      subst h1
      subst h2'
      have IH := insert_geom ln w h ln' retl hl hw hh hInvLn
      exact geom_left_step r ln ln' rgt retl hinv IH.1 IH.2.1 IH.2.2.1 IH.2.2.2
    | none =>
      have hln' : ln' = ln := by
        have := insert_snd_none ln w h
        rw [hl] at this
        simpa using this
      rw [hln'] at hl
      cases rgt with
      | none =>
        rw [insert_node_left_fail_none r ln w h ln hl] at heq
        have : (none : Option Rect) = some ret := congrArg Prod.snd heq
        exact absurd this (by simp)
      | some rn =>
        have hInvRn : Inv rn := by
          simpa [optInv] using ((Inv_mk _ _ _).mp hinv).2.1
        rcases hr : insert rn w h with ⟨rn', resr⟩
        cases resr with
        | some retr =>
          rw [insert_node_left_fail r ln rn w h ln rn' (some retr) hl hr]
            at heq
          have h1 : Node.mk r (some ln) (some rn') = n' :=
            congrArg Prod.fst heq
          have h2 : (some retr : Option Rect) = some ret :=
            congrArg Prod.snd heq
          have h2' : retr = ret := by injection h2
          subst h1
          subst h2'
          have IHr := insert_geom rn w h rn' retr hr hw hh hInvRn
          exact geom_right_step r (some ln) rn rn' retr hinv IHr.1 IHr.2.1
            IHr.2.2.1 IHr.2.2.2
        | none =>
          rw [insert_node_left_fail r ln rn w h ln rn' none hl hr] at heq
          have : (none : Option Rect) = some ret := congrArg Prod.snd heq
          exact absurd this (by simp)
  | .mk r none (some rn), w, h, n', ret => by
    intro heq hw hh hinv
    have hInvRn : Inv rn := by
      simpa [optInv] using ((Inv_mk _ _ _).mp hinv).2.1
    rcases hr : insert rn w h with ⟨rn', resr⟩
    cases resr with
    | some retr =>
      rw [insert_node_right_only r rn w h rn' (some retr) hr] at heq
      have h1 : Node.mk r none (some rn') = n' := congrArg Prod.fst heq
      have h2 : (some retr : Option Rect) = some ret := congrArg Prod.snd heq
      have h2' : retr = ret := by injection h2
      subst h1
      subst h2'
      have IHr := insert_geom rn w h rn' retr hr hw hh hInvRn
      exact geom_right_step r none rn rn' retr hinv IHr.1 IHr.2.1
        IHr.2.2.1 IHr.2.2.2
    | none =>
      rw [insert_node_right_only r rn w h rn' none hr] at heq
      have : (none : Option Rect) = some ret := congrArg Prod.snd heq
      exact absurd this (by simp)

/-- Unfolding of `insertSeq` on a nonempty request list. -/
theorem insertSeq_cons (p : Packer) (q : Int × Int) (rest : List (Int × Int)) :
    insertSeq p (q :: rest) =
      ((insertSeq (p.Insert q.1 q.2).1 rest).1,
       (p.Insert q.1 q.2).2 :: (insertSeq (p.Insert q.1 q.2).1 rest).2) := by
  simp [insertSeq]

/-- Sequence-level geometric invariant: over any sequence of non-negative
requests, the invariant is preserved, the footprint only shrinks, the used
set only grows, every successfully returned rect ends up used, was not used
before the sequence, and lies in the initial footprint, and the returned
rects are pairwise non-overlapping. -/
theorem insertSeq_geom : ∀ (reqs : List (Int × Int)) (p : Packer),
    (∀ q ∈ reqs, 0 ≤ q.1 ∧ 0 ≤ q.2) → Inv p.root →
    Inv (insertSeq p reqs).1.root ∧
    (∀ px py, foot (insertSeq p reqs).1.root px py → foot p.root px py) ∧
    (∀ px py, usedP p.root px py → usedP (insertSeq p reqs).1.root px py) ∧
    (∀ r ∈ (insertSeq p reqs).2.filterMap id,
       (∀ px py, r.covers px py → usedP (insertSeq p reqs).1.root px py) ∧
       (∀ px py, r.covers px py → usedP p.root px py → False) ∧
       (∀ px py, r.covers px py → foot p.root px py)) ∧
    List.Pairwise Rect.disj ((insertSeq p reqs).2.filterMap id)
  | [], p => by
    intro hreq hinv
    simp only [insertSeq, List.filterMap_nil]
    refine ⟨hinv, fun px py hf => hf, fun px py hu => hu, ?_, ?_⟩
    · intro r hr
      simp at hr
    · exact List.Pairwise.nil
  | q :: rest, p => by
    intro hreq hinv
    have hq := hreq q (by simp)
    have hrest : ∀ q' ∈ rest, 0 ≤ q'.1 ∧ 0 ≤ q'.2 := by
      intro q' hq'
      exact hreq q' (by simp [hq'])
    rw [insertSeq_cons]
    rcases hres : (p.Insert q.1 q.2).2 with _ | ret
    · -- failed insert: the packer is unchanged
      have hp1 : (p.Insert q.1 q.2).1 = p := Packer.Insert_snd_none p q.1 q.2 hres
      rw [hp1]
      have IH := insertSeq_geom rest p hrest hinv
      simpa using IH
    · -- successful insert
      have hroot1 : (p.Insert q.1 q.2).1.root = (insert p.root q.1 q.2).1 := rfl
      have hsnd : (insert p.root q.1 q.2).2 = some ret := hres
      have hins : insert p.root q.1 q.2 = ((p.Insert q.1 q.2).1.root, some ret) := by
        rw [hroot1, ← hsnd]
      have hgeom := insert_geom p.root q.1 q.2 (p.Insert q.1 q.2).1.root ret
        hins hq.1 hq.2 hinv
      obtain ⟨hInv1, hfoot1, hretfree, hused1⟩ := hgeom
      have IH := insertSeq_geom rest (p.Insert q.1 q.2).1 hrest hInv1
      obtain ⟨IHinv, IHfoot, IHused, IHlist, IHpair⟩ := IH
      simp only [List.filterMap_cons, id]
      refine ⟨IHinv, ?_, ?_, ?_, ?_⟩
      · intro px py hf
        exact hfoot1 px py (IHfoot px py hf)
      · intro px py hu
        exact IHused px py ((hused1 px py).mpr (Or.inl hu))
      · intro r hr
        rcases List.mem_cons.mp hr with hr | hr
        · subst hr
          refine ⟨?_, ?_, ?_⟩
          · intro px py hc
            exact IHused px py ((hused1 px py).mpr (Or.inr hc))
          · intro px py hc hu
            exact usedP_freeP_disj p.root hinv px py hu (hretfree px py hc)
          · intro px py hc
            exact freeP_sub_foot p.root px py (hretfree px py hc)
        · obtain ⟨ha, hb, hc⟩ := IHlist r hr
          refine ⟨ha, ?_, ?_⟩
          · intro px py hcov hu
            exact hb px py hcov ((hused1 px py).mpr (Or.inl hu))
          · intro px py hcov
            exact hfoot1 px py (hc px py hcov)
      · refine List.Pairwise.cons ?_ IHpair
        intro r' hr' px py hcret hcr'
        obtain ⟨ha, hb, hc⟩ := IHlist r' hr'
        exact hb px py hcr' ((hused1 px py).mpr (Or.inr hcret))

/-! ## Reachability invariants -/

/-- `Insert` steps never change the stored bin dimensions. -/
theorem ReachIns_binDims (p q : Packer) (hre : ReachIns p q) :
    q.binWidth = p.binWidth ∧ q.binHeight = p.binHeight := by
  induction hre with
  | refl => exact ⟨rfl, rfl⟩
  | step q' w h hw hh hr IH =>
    have hd := Packer.Insert_binDims q' w h
    exact ⟨hd.1.trans IH.1, hd.2.trans IH.2⟩

/-- Along non-negative `Insert` sequences, dimensions stay non-negative and
the total of used and free area is conserved. -/
theorem ReachIns_area (p q : Packer) (hre : ReachIns p q)
    (hd : dimsNonneg p.root) :
    dimsNonneg q.root ∧
    usedArea q.root + freeArea q.root = usedArea p.root + freeArea p.root := by
  induction hre with
  | refl => exact ⟨hd, rfl⟩
  | step q' w h hw hh hr IH =>
    have hroot : ((q'.Insert w h).1).root = (insert q'.root w h).1 := rfl
    constructor
    · rw [hroot]
      exact dimsNonneg_insert q'.root w h IH.1 hw hh
    · rw [hroot, area_sum_insert q'.root w h]
      exact IH.2

/-- Along non-negative `Insert` sequences, all-zero widths are preserved. -/
theorem ReachIns_widthsZero (p q : Packer) (hre : ReachIns p q)
    (hz : widthsZero p.root) : widthsZero q.root := by
  induction hre with
  | refl => exact hz
  | step q' w h hw hh hr IH =>
    exact widthsZero_insert q'.root w h IH hw

/-- Along non-negative `Insert` sequences, all-zero heights are preserved. -/
theorem ReachIns_heightsZero (p q : Packer) (hre : ReachIns p q)
    (hz : heightsZero p.root) : heightsZero q.root := by
  induction hre with
  | refl => exact hz
  | step q' w h hw hh hr IH =>
    exact heightsZero_insert q'.root w h IH hh

/-! ## Basic facts about `New` and `Occupancy` -/

theorem New_usedArea (w h : Int) : usedArea (New w h).root = 0 := rfl

theorem New_freeArea (w h : Int) : freeArea (New w h).root = w * h := rfl

theorem New_dimsNonneg (w h : Int) (hw : 0 ≤ w) (hh : 0 ≤ h) :
    dimsNonneg (New w h).root := by
  simp [New, dimsNonneg, hw, hh]

theorem New_Inv (w h : Int) : Inv (New w h).root := by
  simp [New, Inv]

theorem New_Occupancy (w h : Int) : (New w h).Occupancy = 0 := by
  simp [Packer.Occupancy, New_usedArea]

/-- `Occupancy` never decreases across an `Insert` with non-negative request
on a positive-area bin. -/
theorem Occupancy_mono (p : Packer) (w h : Int) (hw : 0 ≤ w) (hh : 0 ≤ h)
    (harea : 0 < p.binWidth * p.binHeight) :
    p.Occupancy ≤ ((p.Insert w h).1).Occupancy := by
  have hroot : ((p.Insert w h).1).root = (insert p.root w h).1 := rfl
  have hbw : ((p.Insert w h).1).binWidth = p.binWidth := (Packer.Insert_binDims p w h).1
  have hbh : ((p.Insert w h).1).binHeight = p.binHeight := (Packer.Insert_binDims p w h).2
  have hdelta := usedArea_insert p.root w h
  have hle : usedArea p.root ≤ usedArea ((p.Insert w h).1).root := by
    rw [hroot, hdelta]
    have : (0:Int) ≤ (if (insert p.root w h).2.isSome then w * h else 0) := by
      split
      · exact mul_nonneg hw hh
      · exact le_refl 0
    omega
  have hD : (0:ℚ) < ((p.binWidth * p.binHeight : Int) : ℚ) := by
    exact_mod_cast harea
  have hcast : ((usedArea p.root : Int) : ℚ) ≤
      ((usedArea ((p.Insert w h).1).root : Int) : ℚ) := by
    exact_mod_cast hle
  unfold Packer.Occupancy
  rw [hbw, hbh]
  exact div_le_div_of_nonneg_right hcast hD.le

/-! ## Bookkeeping for `insertSeq` -/

theorem insertSeq_binDims : ∀ (reqs : List (Int × Int)) (p : Packer),
    (insertSeq p reqs).1.binWidth = p.binWidth ∧
    (insertSeq p reqs).1.binHeight = p.binHeight
  | [], p => ⟨rfl, rfl⟩
  | q :: rest, p => by
    rw [insertSeq_cons]
    have IH := insertSeq_binDims rest (p.Insert q.1 q.2).1
    have hd := Packer.Insert_binDims p q.1 q.2
    exact ⟨IH.1.trans hd.1, IH.2.trans hd.2⟩

/-- When every call of the sequence succeeds, the used area grows by exactly
the total requested area. -/
theorem insertSeq_usedArea : ∀ (reqs : List (Int × Int)) (p : Packer),
    (∀ o ∈ (insertSeq p reqs).2, o.isSome = true) →
    usedArea (insertSeq p reqs).1.root =
      usedArea p.root + (reqs.map (fun q => q.1 * q.2)).sum
  | [], p => by
    intro _
    simp [insertSeq]
  | q :: rest, p => by
    intro hall
    rw [insertSeq_cons] at hall ⊢
    simp only [List.mem_cons, List.map_cons, List.sum_cons] at hall ⊢
    have hstep : (p.Insert q.1 q.2).2.isSome = true :=
      hall _ (Or.inl rfl)
    have IH := insertSeq_usedArea rest (p.Insert q.1 q.2).1
      (fun o ho => hall o (Or.inr ho))
    rw [IH]
    have hroot : ((p.Insert q.1 q.2).1).root = (insert p.root q.1 q.2).1 := rfl
    have hdelta := usedArea_insert p.root q.1 q.2
    have : (p.Insert q.1 q.2).2 = (insert p.root q.1 q.2).2 := rfl
    rw [this] at hstep
    rw [hroot, hdelta, if_pos hstep]
    ring

/-! ## The frame property of a successful insert -/

/-- A successful `insert` finds a path to one leaf that the request fits,
replaces exactly that leaf by its split, and changes nothing else. -/
theorem insert_frame : ∀ (n : Node) (w h : Int) (n' : Node) (ret : Rect),
    insert n w h = (n', some ret) →
    ∃ (ds : List Dir) (lr : Rect),
      getNode n ds = some (.mk lr none none) ∧
      w ≤ lr.Width ∧ h ≤ lr.Height ∧
      ret = ⟨lr.X, lr.Y, w, h⟩ ∧
      n' = setNode n ds (splitNode lr w h)
  | .mk r none none, w, h, n', ret => by
    intro heq
    by_cases hfit : w ≤ r.Width ∧ h ≤ r.Height
    · rw [insert_leaf_fit r w h hfit.1 hfit.2] at heq
      have h1 : splitNode r w h = n' := congrArg Prod.fst heq
      have h2 : (some ⟨r.X, r.Y, w, h⟩ : Option Rect) = some ret :=
        congrArg Prod.snd heq
      have h2' : (⟨r.X, r.Y, w, h⟩ : Rect) = ret := by injection h2
      exact ⟨[], r, rfl, hfit.1, hfit.2, h2'.symm, by
        simp [setNode, ← h1]⟩
    · rw [insert_leaf_nofit r w h hfit] at heq
      have : (none : Option Rect) = some ret := congrArg Prod.snd heq
      exact absurd this (by simp)
  | .mk r (some ln) rgt, w, h, n', ret => by
    intro heq
    rcases hl : insert ln w h with ⟨ln', resl⟩
    cases resl with
    | some retl =>
      rw [insert_node_left_success r ln rgt w h ln' retl hl] at heq
      have h1 : Node.mk r (some ln') rgt = n' := congrArg Prod.fst heq
      have h2 : (some retl : Option Rect) = some ret := congrArg Prod.snd heq
      have h2' : retl = ret := by injection h2
      subst h2'
      obtain ⟨ds, lr, hget, hfw, hfh, hret, hset⟩ :=
        insert_frame ln w h ln' retl hl
      refine ⟨.left :: ds, lr, ?_, hfw, hfh, hret, ?_⟩
      · simpa [getNode] using hget
      · rw [← h1, hset]
        simp [setNode]
    | none =>
      have hln' : ln' = ln := by
        have := insert_snd_none ln w h
        rw [hl] at this
        simpa using this
      rw [hln'] at hl
      cases rgt with
      | none =>
        rw [insert_node_left_fail_none r ln w h ln hl] at heq
        have : (none : Option Rect) = some ret := congrArg Prod.snd heq
        exact absurd this (by simp)
      | some rn =>
        rcases hr : insert rn w h with ⟨rn', resr⟩
        cases resr with
        | some retr =>
          rw [insert_node_left_fail r ln rn w h ln rn' (some retr) hl hr]
            at heq
          have h1 : Node.mk r (some ln) (some rn') = n' :=
            congrArg Prod.fst heq
          have h2 : (some retr : Option Rect) = some ret :=
            congrArg Prod.snd heq
          have h2' : retr = ret := by injection h2
          subst h2'
          obtain ⟨ds, lr, hget, hfw, hfh, hret, hset⟩ :=
            insert_frame rn w h rn' retr hr
          refine ⟨.right :: ds, lr, ?_, hfw, hfh, hret, ?_⟩
          · simpa [getNode] using hget
          · rw [← h1, hset]
            simp [setNode]
        | none =>
          rw [insert_node_left_fail r ln rn w h ln rn' none hl hr] at heq
          have : (none : Option Rect) = some ret := congrArg Prod.snd heq
          exact absurd this (by simp)
  | .mk r none (some rn), w, h, n', ret => by
    intro heq
    rcases hr : insert rn w h with ⟨rn', resr⟩
    cases resr with
    | some retr =>
      rw [insert_node_right_only r rn w h rn' (some retr) hr] at heq
      have h1 : Node.mk r none (some rn') = n' := congrArg Prod.fst heq
      have h2 : (some retr : Option Rect) = some ret := congrArg Prod.snd heq
      have h2' : retr = ret := by injection h2
      subst h2'
      obtain ⟨ds, lr, hget, hfw, hfh, hret, hset⟩ :=
        insert_frame rn w h rn' retr hr
      refine ⟨.right :: ds, lr, ?_, hfw, hfh, hret, ?_⟩
      · simpa [getNode] using hget
      · rw [← h1, hset]
        simp [setNode]
    | none =>
      rw [insert_node_right_only r rn w h rn' none hr] at heq
      have : (none : Option Rect) = some ret := congrArg Prod.snd heq
      exact absurd this (by simp)

/-! ## Claim theorems -/

/-- Claim C1, counterexample: the claim asserts `Occupancy()` lies in
`[0, 1]` for every state reachable by Construct, Insert and successful
Enlarge calls.  In the repository's own test scenario — `New(5,5)`,
`Enlarge(20,20)`, then `Insert(15,15)` — the used area is 625 on a 400-area
bin, so `Occupancy()` is 25/16 = 1.5625 > 1 (exactly representable, so the
Go float64 computes the same value): after `Enlarge` the new root's full
rect is counted as used and any further successful insert pushes the sum
past the bin area. -/
theorem C1_occupancy_counterexample :
    Packer.Occupancy (((New 5 5).Enlarge 20 20).1.Insert 15 15).1 = 25 / 16 ∧
    ¬ Packer.Occupancy (((New 5 5).Enlarge 20 20).1.Insert 15 15).1 ≤ 1 := by
  have h1 : usedArea (((New 5 5).Enlarge 20 20).1.Insert 15 15).1.root = 625 := by
    decide
  have h2 : (((New 5 5).Enlarge 20 20).1.Insert 15 15).1.binWidth = 20 := by
    decide
  have h3 : (((New 5 5).Enlarge 20 20).1.Insert 15 15).1.binHeight = 20 := by
    decide
  unfold Packer.Occupancy
  rw [h1, h2, h3]
  norm_num

/-- Claim C1, amended: for every state reachable from `Construct(W, H)` with
non-negative dimensions by `Insert` calls with non-negative requested
dimensions (no `Enlarge`), `Occupancy()` returns `usedArea` divided by
`binWidth * binHeight`, `usedArea` (the recursive sum of the interior
nodes' rect areas, leaves contributing zero) satisfies
`0 ≤ usedArea ≤ binWidth * binHeight`, and whenever the bin has positive
area the quotient lies in `[0, 1]`.  (For a zero-area bin the Go float
division is 0/0; the exact-rational model takes `x / 0 = 0`.) -/
theorem C1_occupancy_bounds_without_enlarge (W H : Int) (p : Packer)
    (hW : 0 ≤ W) (hH : 0 ≤ H) (hre : ReachIns (New W H) p) :
    p.Occupancy =
      (usedArea p.root : ℚ) / ((p.binWidth * p.binHeight : Int) : ℚ) ∧
    0 ≤ usedArea p.root ∧
    usedArea p.root ≤ p.binWidth * p.binHeight ∧
    (0 < p.binWidth * p.binHeight → 0 ≤ p.Occupancy ∧ p.Occupancy ≤ 1) := by
  have hdims := ReachIns_binDims _ _ hre
  have harea := ReachIns_area _ _ hre (New_dimsNonneg W H hW hH)
  have hW' : p.binWidth = W := by simpa [New] using hdims.1
  have hH' : p.binHeight = H := by simpa [New] using hdims.2
  have hsum : usedArea p.root + freeArea p.root = W * H := by
    have h := harea.2
    rw [New_usedArea, New_freeArea] at h
    omega
  have hnn := areas_nonneg p.root harea.1
  have hub : usedArea p.root ≤ p.binWidth * p.binHeight := by
    rw [hW', hH']
    omega
  refine ⟨rfl, hnn.1, hub, ?_⟩
  intro hpos
  constructor
  · unfold Packer.Occupancy
    apply div_nonneg
    · exact_mod_cast hnn.1
    · exact_mod_cast le_of_lt hpos
  · unfold Packer.Occupancy
    rw [div_le_one (by exact_mod_cast hpos)]
    exact_mod_cast hub

/-- Witness for C1's amended theorem at `New 4 4` followed by
`Insert(3, 3)`. -/
theorem C1_occupancy_bounds_witness :
    Packer.Occupancy ((New 4 4).Insert 3 3).1 =
      (usedArea ((New 4 4).Insert 3 3).1.root : ℚ) /
        ((((New 4 4).Insert 3 3).1.binWidth *
          ((New 4 4).Insert 3 3).1.binHeight : Int) : ℚ) ∧
    0 ≤ usedArea ((New 4 4).Insert 3 3).1.root ∧
    usedArea ((New 4 4).Insert 3 3).1.root ≤
      ((New 4 4).Insert 3 3).1.binWidth * ((New 4 4).Insert 3 3).1.binHeight ∧
    (0 < ((New 4 4).Insert 3 3).1.binWidth *
        ((New 4 4).Insert 3 3).1.binHeight →
      0 ≤ Packer.Occupancy ((New 4 4).Insert 3 3).1 ∧
      Packer.Occupancy ((New 4 4).Insert 3 3).1 ≤ 1) :=
  C1_occupancy_bounds_without_enlarge 4 4 ((New 4 4).Insert 3 3).1
    (by norm_num) (by norm_num)
    (ReachIns.step (New 4 4) (New 4 4) 3 3 (by norm_num) (by norm_num)
      (ReachIns.refl (New 4 4)))

/-- Claim C2 (confirmed): over any sequence of `Insert` calls on a bin built
by `Construct` (no `Enlarge`), with request dimensions non-negative as the
spec's data model prescribes (§3: all rect dimensions are `≥ 0`), the
rectangles returned by the successful calls are pairwise non-overlapping
and each lies fully within the bin rectangle `(0, 0, W, H)`. -/
theorem C2_no_overlap_within_bin (W H : Int) (reqs : List (Int × Int))
    (hreq : ∀ q ∈ reqs, 0 ≤ q.1 ∧ 0 ≤ q.2) :
    List.Pairwise Rect.disj ((insertSeq (New W H) reqs).2.filterMap id) ∧
    ∀ r ∈ (insertSeq (New W H) reqs).2.filterMap id,
      Rect.inside r ⟨0, 0, W, H⟩ := by
  have hgeo := insertSeq_geom reqs (New W H) hreq (New_Inv W H)
  refine ⟨hgeo.2.2.2.2, ?_⟩
  intro r hr
  intro px py hc
  have hf := (hgeo.2.2.2.1 r hr).2.2 px py hc
  simpa [New, foot] using hf

/-- Witness for C2 with the 4×4 scenario request list (3,3), (1,4), (1,1). -/
theorem C2_no_overlap_witness :
    List.Pairwise Rect.disj
      ((insertSeq (New 4 4) [(3,3), (1,4), (1,1)]).2.filterMap id) ∧
    ∀ r ∈ (insertSeq (New 4 4) [(3,3), (1,4), (1,1)]).2.filterMap id,
      Rect.inside r ⟨0, 0, 4, 4⟩ :=
  C2_no_overlap_within_bin 4 4 [(3,3), (1,4), (1,1)] (by decide)

/-- Claim C3, counterexample: the claim asserts that after `Construct(4,4)`
and a successful `Insert(3,3)`, a following `Insert(1,4)` fails with the
no-space error.  In fact the vertical split of the first insert leaves the
right child `(3, 0, 1, 4)` spanning the bin's full height, so `Insert(1,4)`
succeeds and returns that strip. -/
theorem C3_insert_1_4_succeeds :
    (((New 4 4).Insert 3 3).1.Insert 1 4).2 = some ⟨3, 0, 1, 4⟩ := by
  decide

/-- Claim C3, amended: starting from `Construct(4,4)`, `Insert(3,3)`
succeeds returning `Rect{0,0,3,3}`; a following `Insert(1,4)` also succeeds
(returning the full-height right strip `Rect{3,0,1,4}`, because the
vertical split keeps `leaf.height` for the right child); and a following
`Insert(1,1)` succeeds (returning `Rect{0,3,1,1}`). -/
theorem C3_scenario_amended :
    ((New 4 4).Insert 3 3).2 = some ⟨0, 0, 3, 3⟩ ∧
    (((New 4 4).Insert 3 3).1.Insert 1 4).2 = some ⟨3, 0, 1, 4⟩ ∧
    ((((New 4 4).Insert 3 3).1.Insert 1 4).1.Insert 1 1).2 =
      some ⟨0, 3, 1, 1⟩ := by
  refine ⟨by decide, by decide, by decide⟩

/-- Claim C4, counterexample: the claim asserts that on a zero-area bin
every `Insert`, *including zero-sized requests*, fails.  In fact
`Insert(0,0)` on `Construct(0,0)` succeeds (the leaf test `0 > 0 || 0 > 0`
is false) and returns `Rect{0,0,0,0}`. -/
theorem C4_insert_0_0_succeeds :
    ((New 0 0).Insert 0 0).2 = some ⟨0, 0, 0, 0⟩ := by
  decide

/-- Claim C4, amended: on a degenerate bin (`Construct(W, H)` with
non-negative dimensions and `W * H = 0`), along any sequence of `Insert`
calls with non-negative requested dimensions, every `Insert` whose width
and height are both positive fails; only requests with a zero (or negative)
dimension can succeed. -/
theorem C4_degenerate_bin_no_positive_insert (W H : Int) (p : Packer)
    (hW : 0 ≤ W) (hH : 0 ≤ H) (hzero : W * H = 0)
    (hre : ReachIns (New W H) p) (w h : Int) (hw : 1 ≤ w) (hh : 1 ≤ h) :
    (p.Insert w h).2 = none := by
  have hpi : (p.Insert w h).2 = (insert p.root w h).2 := rfl
  rw [hpi]
  rcases mul_eq_zero.mp hzero with h0 | h0
  · subst h0
    have hz : widthsZero p.root :=
      ReachIns_widthsZero _ _ hre (by simp [New, widthsZero])
    apply insert_fail_of_no_fit
    intro r hrm
    have hw0 := widthsZero_leafRects p.root hz r hrm
    have hnle : ¬ w ≤ r.Width := by omega
    simp [fitsB, hnle]
  · subst h0
    have hz : heightsZero p.root :=
      ReachIns_heightsZero _ _ hre (by simp [New, heightsZero])
    apply insert_fail_of_no_fit
    intro r hrm
    have hh0 := heightsZero_leafRects p.root hz r hrm
    have hnle : ¬ h ≤ r.Height := by omega
    simp [fitsB, hnle]

/-- Witness for C4's amended theorem: `Insert(1,1)` on `Construct(0,0)`
fails. -/
theorem C4_degenerate_bin_witness : ((New 0 0).Insert 1 1).2 = none :=
  C4_degenerate_bin_no_positive_insert 0 0 (New 0 0) (by norm_num)
    (by norm_num) (by norm_num) (ReachIns.refl (New 0 0)) 1 1
    (by norm_num) (by norm_num)

/-- Claim C5 (confirmed): at a leaf the request fits, with
`restW = leaf.Width - width` and `restH = leaf.Height - height`: if
`restW < restH` the attached children are `(x+width, y, restW, height)` and
`(x, y+height, leaf.width, restH)`; otherwise (ties included) they are
`(x, y+height, width, restH)` and `(x+width, y, restW, leaf.height)`; the
leaf's own rect becomes `(x, y, width, height)` and is the returned
value. -/
theorem C5_leaf_split (r : Rect) (w h : Int)
    (hw : w ≤ r.Width) (hh : h ≤ r.Height) :
    insert (.mk r none none) w h =
      (if r.Width - w < r.Height - h then
        (.mk ⟨r.X, r.Y, w, h⟩
          (some (.mk ⟨r.X + w, r.Y, r.Width - w, h⟩ none none))
          (some (.mk ⟨r.X, r.Y + h, r.Width, r.Height - h⟩ none none)),
         some ⟨r.X, r.Y, w, h⟩)
      else
        (.mk ⟨r.X, r.Y, w, h⟩
          (some (.mk ⟨r.X, r.Y + h, w, r.Height - h⟩ none none))
          (some (.mk ⟨r.X + w, r.Y, r.Width - w, r.Height⟩ none none)),
         some ⟨r.X, r.Y, w, h⟩)) := by
  rw [insert_leaf_fit r w h hw hh]
  simp only [splitNode]
  split <;> rfl

/-- Witness for C5 at the leaf `(0,0,4,4)` with request 3×3 (the tie case,
split vertically). -/
theorem C5_leaf_split_witness :
    insert (.mk ⟨0, 0, 4, 4⟩ none none) 3 3 =
      (if (4 : Int) - 3 < 4 - 3 then
        (.mk ⟨0, 0, 3, 3⟩
          (some (.mk ⟨0 + 3, 0, 4 - 3, 3⟩ none none))
          (some (.mk ⟨0, 0 + 3, 4, 4 - 3⟩ none none)),
         some ⟨0, 0, 3, 3⟩)
      else
        (.mk ⟨0, 0, 3, 3⟩
          (some (.mk ⟨0, 0 + 3, 3, 4 - 3⟩ none none))
          (some (.mk ⟨0 + 3, 0, 4 - 3, 4⟩ none none)),
         some ⟨0, 0, 3, 3⟩)) :=
  C5_leaf_split ⟨0, 0, 4, 4⟩ 3 3 (by norm_num) (by norm_num)

/-- Claim C6 (confirmed): `insert`'s search is depth-first pre-order, left
child first; a left success is propagated without touching the right child;
otherwise the right child's result (success or failure) is the node's
result; consequently the placed rectangle sits at the first fitting leaf in
depth-first left-to-right order (`find?` over `leafRects`). -/
theorem C6_first_fit_depth_first (w h : Int) :
    (∀ n : Node, (insert n w h).2 =
      ((leafRects n).find? (fitsB w h)).map fun r => ⟨r.X, r.Y, w, h⟩) ∧
    (∀ (r : Rect) (ln : Node) (rgt : Option Node) (ln' : Node) (ret : Rect),
      insert ln w h = (ln', some ret) →
      insert (.mk r (some ln) rgt) w h = (.mk r (some ln') rgt, some ret)) ∧
    (∀ (r : Rect) (ln rn ln' rn' : Node) (resr : Option Rect),
      insert ln w h = (ln', none) → insert rn w h = (rn', resr) →
      insert (.mk r (some ln) (some rn)) w h =
        (.mk r (some ln') (some rn'), resr)) :=
  ⟨fun n => insert_snd_eq_find n w h,
   fun r ln rgt ln' ret hl => insert_node_left_success r ln rgt w h ln' ret hl,
   fun r ln rn ln' rn' resr hl hr =>
     insert_node_left_fail r ln rn w h ln' rn' resr hl hr⟩

/-- Witness for C6 at request 1×1: the first-fit equation at a concrete
interior tree, a left success propagated with the right child untouched,
and a left failure falling through to the right child. -/
theorem C6_first_fit_witness :
    ((insert (.mk ⟨0, 0, 9, 9⟩ (some (.mk ⟨0, 0, 4, 4⟩ none none))
        (some (.mk ⟨5, 5, 4, 4⟩ none none))) 1 1).2 =
      ((leafRects (.mk ⟨0, 0, 9, 9⟩ (some (.mk ⟨0, 0, 4, 4⟩ none none))
        (some (.mk ⟨5, 5, 4, 4⟩ none none)))).find? (fitsB 1 1)).map
          fun r => ⟨r.X, r.Y, 1, 1⟩) ∧
    insert (.mk ⟨0, 0, 9, 9⟩ (some (.mk ⟨0, 0, 4, 4⟩ none none))
        (some (.mk ⟨5, 5, 4, 4⟩ none none))) 1 1 =
      (.mk ⟨0, 0, 9, 9⟩
        (some (.mk ⟨0, 0, 1, 1⟩
          (some (.mk ⟨0, 1, 1, 3⟩ none none))
          (some (.mk ⟨1, 0, 3, 4⟩ none none))))
        (some (.mk ⟨5, 5, 4, 4⟩ none none)), some ⟨0, 0, 1, 1⟩) ∧
    insert (.mk ⟨0, 0, 9, 9⟩ (some (.mk ⟨0, 0, 0, 0⟩ none none))
        (some (.mk ⟨5, 5, 4, 4⟩ none none))) 1 1 =
      (.mk ⟨0, 0, 9, 9⟩
        (some (.mk ⟨0, 0, 0, 0⟩ none none))
        (some (.mk ⟨5, 5, 1, 1⟩
          (some (.mk ⟨5, 6, 1, 3⟩ none none))
          (some (.mk ⟨6, 5, 3, 4⟩ none none)))), some ⟨5, 5, 1, 1⟩) :=
  ⟨(C6_first_fit_depth_first 1 1).1 _,
   (C6_first_fit_depth_first 1 1).2.1 ⟨0, 0, 9, 9⟩ (.mk ⟨0, 0, 4, 4⟩ none none)
     (some (.mk ⟨5, 5, 4, 4⟩ none none))
     (.mk ⟨0, 0, 1, 1⟩
       (some (.mk ⟨0, 1, 1, 3⟩ none none))
       (some (.mk ⟨1, 0, 3, 4⟩ none none))) ⟨0, 0, 1, 1⟩ (by rfl),
   (C6_first_fit_depth_first 1 1).2.2 ⟨0, 0, 9, 9⟩ (.mk ⟨0, 0, 0, 0⟩ none none)
     (.mk ⟨5, 5, 4, 4⟩ none none) (.mk ⟨0, 0, 0, 0⟩ none none)
     (.mk ⟨5, 5, 1, 1⟩
       (some (.mk ⟨5, 6, 1, 3⟩ none none))
       (some (.mk ⟨6, 5, 3, 4⟩ none none))) (some ⟨5, 5, 1, 1⟩)
     (by rfl) (by rfl)⟩

/-- Claim C7 (confirmed): `Enlarge(nw, nh)` errors iff `nw < binWidth` or
`nh < binHeight`, and on success replaces the root by an interior node with
rect `(0, 0, nw, nh)` whose children are exactly the bottom-strip leaf
`(0, binHeight, nw, nh - binHeight)` and the right-strip leaf
`(binWidth, 0, nw - binWidth, binHeight)`, updating the stored dimensions
to `nw, nh`. -/
theorem C7_enlarge (p : Packer) (nw nh : Int) :
    p.Enlarge nw nh =
      if nw < p.binWidth ∨ nh < p.binHeight then (p, false)
      else
        ({ root := .mk ⟨0, 0, nw, nh⟩
             (some (.mk ⟨0, p.binHeight, nw, nh - p.binHeight⟩ none none))
             (some (.mk ⟨p.binWidth, 0, nw - p.binWidth, p.binHeight⟩
               none none))
           binWidth := nw
           binHeight := nh }, true) := by
  by_cases hc : nw < p.binWidth ∨ nh < p.binHeight
  · rw [if_pos hc]
    simp only [Packer.Enlarge]
    rw [if_pos (by simpa using hc)]
  · rw [if_neg hc]
    simp only [Packer.Enlarge]
    rw [if_neg (by simpa using hc)]

/-- Claim C8 (confirmed): both operations are atomic on failure — a failed
`Insert` and a failed `Enlarge` each leave the packer (tree and bin
dimensions) exactly as before the call. -/
theorem C8_atomic_failure (p : Packer) (w h nw nh : Int) :
    ((p.Insert w h).2 = none → (p.Insert w h).1 = p) ∧
    ((p.Enlarge nw nh).2 = false → (p.Enlarge nw nh).1 = p) := by
  constructor
  · exact Packer.Insert_snd_none p w h
  · intro hf
    by_cases hc : nw < p.binWidth ∨ nh < p.binHeight
    · simp only [Packer.Enlarge]
      rw [if_pos (by simpa using hc)]
    · exfalso
      simp only [Packer.Enlarge] at hf
      rw [if_neg (by simpa using hc)] at hf
      simp at hf

/-- Witness for C8: `Insert(3,3)` fails on a 2×2 bin and leaves it
unchanged; `Enlarge(1,1)` fails on a 2×2 bin and leaves it unchanged. -/
theorem C8_atomic_failure_witness :
    ((New 2 2).Insert 3 3).1 = New 2 2 ∧
    ((New 2 2).Enlarge 1 1).1 = New 2 2 :=
  ⟨(C8_atomic_failure (New 2 2) 3 3 1 1).1 (by rfl),
   (C8_atomic_failure (New 2 2) 3 3 1 1).2 (by rfl)⟩

/-- Claim C9 (confirmed, with requests non-negative per the spec's data
model, and "rectangles that tile the bin with no remainder" formalized by
their total area equalling the bin area — for successfully inserted,
hence pairwise disjoint in-bin rectangles the two readings coincide): on a
positive-area bin with no `Enlarge`, `Occupancy()` is 0 before any insert,
non-decreasing across every `Insert`, and exactly 1 after a sequence of
successful inserts of total area `W * H`. -/
theorem C9_occupancy_monotone (W H : Int) (harea : 0 < W * H) :
    (New W H).Occupancy = 0 ∧
    (∀ (p : Packer) (w h : Int), 0 ≤ w → 0 ≤ h →
      0 < p.binWidth * p.binHeight →
      p.Occupancy ≤ ((p.Insert w h).1).Occupancy) ∧
    (∀ reqs : List (Int × Int),
      (∀ o ∈ (insertSeq (New W H) reqs).2, o.isSome = true) →
      (reqs.map fun q => q.1 * q.2).sum = W * H →
      ((insertSeq (New W H) reqs).1).Occupancy = 1) := by
  refine ⟨New_Occupancy W H,
    fun p w h hw hh hp => Occupancy_mono p w h hw hh hp, ?_⟩
  intro reqs hall hsum
  have hu := insertSeq_usedArea reqs (New W H) hall
  rw [New_usedArea, hsum, zero_add] at hu
  have hbw : (insertSeq (New W H) reqs).1.binWidth = W :=
    (insertSeq_binDims reqs (New W H)).1
  have hbh : (insertSeq (New W H) reqs).1.binHeight = H :=
    (insertSeq_binDims reqs (New W H)).2
  unfold Packer.Occupancy
  rw [hu, hbw, hbh, div_self]
  exact_mod_cast harea.ne'

/-- Witness for C9 at a 2×2 bin: two successful 1×2 inserts tile the bin and
`Occupancy` reaches exactly 1. -/
theorem C9_occupancy_monotone_witness :
    Packer.Occupancy (insertSeq (New 2 2) [(1,2), (1,2)]).1 = 1 :=
  (C9_occupancy_monotone 2 2 (by norm_num)).2.2 [(1,2), (1,2)]
    (by decide) (by decide)

/-- Claim C10 (confirmed): a successful `Insert(w, h)` mutates exactly one
node — a leaf reachable by some path, whose rect is shrunk to the request's
dimensions at the leaf's corner and which gains the two split children —
while every node off that path and the stored bin dimensions are
unchanged (`setNode` rebuilds only the nodes along the path, keeping their
rects and off-path children). -/
theorem C10_insert_frame (p : Packer) (w h : Int) (p' : Packer) (ret : Rect)
    (hins : p.Insert w h = (p', some ret)) :
    p'.binWidth = p.binWidth ∧ p'.binHeight = p.binHeight ∧
    ∃ (ds : List Dir) (lr : Rect),
      getNode p.root ds = some (.mk lr none none) ∧
      w ≤ lr.Width ∧ h ≤ lr.Height ∧
      ret = ⟨lr.X, lr.Y, w, h⟩ ∧
      p'.root = setNode p.root ds (splitNode lr w h) := by
  have h1 : p' = (p.Insert w h).1 := by rw [hins]
  have h2 : (insert p.root w h).2 = some ret := by
    have : (p.Insert w h).2 = some ret := by rw [hins]
    exact this
  have hins' : insert p.root w h = ((insert p.root w h).1, some ret) := by
    rw [← h2]
  obtain ⟨ds, lr, hget, hfw, hfh, hret, hset⟩ :=
    insert_frame p.root w h (insert p.root w h).1 ret hins'
  subst h1
  exact ⟨(Packer.Insert_binDims p w h).1, (Packer.Insert_binDims p w h).2,
    ds, lr, hget, hfw, hfh, hret, hset⟩

/-- Witness for C10: `Insert(3,3)` on a fresh 4×4 bin. -/
theorem C10_insert_frame_witness :
    ((New 4 4).Insert 3 3).1.binWidth = (New 4 4).binWidth ∧
    ((New 4 4).Insert 3 3).1.binHeight = (New 4 4).binHeight ∧
    ∃ (ds : List Dir) (lr : Rect),
      getNode (New 4 4).root ds = some (.mk lr none none) ∧
      3 ≤ lr.Width ∧ 3 ≤ lr.Height ∧
      (⟨0, 0, 3, 3⟩ : Rect) = ⟨lr.X, lr.Y, 3, 3⟩ ∧
      ((New 4 4).Insert 3 3).1.root =
        setNode (New 4 4).root ds (splitNode lr 3 3) :=
  C10_insert_frame (New 4 4) 3 3 ((New 4 4).Insert 3 3).1 ⟨0, 0, 3, 3⟩
    (by rfl)

end Binpacker
